import Mathlib

/-!
Verification of the Documize Community tenant backup/export subsystem and
the GitHub issues report section, embedded shallowly from the Go sources
in domain/backup/endpoint.go and core/section/github/issues.go.
-/

set_option maxRecDepth 10000

/-! ## Backup HTTP endpoint (domain/backup/endpoint.go)

The handler method Handler.Backup is a straight-line effectful procedure.
We embed it as a pure function over an environment record that supplies the
results of each external call (request-body read, JSON unmarshal of the
export specification, core backup generation, archive-file read, response
write), and we record the observable effects in a result record.
-/

/-- Request context fields used by the handler (domain.GetRequestContext). -/
structure RequestContext where
  Administrator : Bool
  UserID : String
  OrgID : String

/-- model/backup ExportSpec: only the Retain field is read by the handler. -/
structure ExportSpec where
  Retain : Bool

/-- Environment supplying the results of the handler's external calls.
Each field models one fallible call site in Handler.Backup, in order. -/
structure BackupEnv where
  ctx : RequestContext
  /-- result of ioutil.ReadAll(r.Body) -/
  readBody : Except String String
  /-- result of json.Unmarshal(body, &spec) -/
  parseExportSpec : String → Except String ExportSpec
  /-- result of backerHandler.GenerateBackup (the core export pipeline,
  defined outside this file's sources); returns the archive filename. -/
  generateBackup : ExportSpec → Except String String
  /-- result of ioutil.ReadFile(filename): full archive contents -/
  readFile : String → Except String String
  /-- result of w.Write(bk): number of bytes written -/
  writeResp : String → Except String Nat

/-- The response written by the handler: response.WriteForbiddenError,
response.WriteBadRequestError (method and message),
response.WriteServerError (method and message), or the 200 zip stream. -/
inductive HttpResponse where
  | forbidden
  | badRequest (method msg : String)
  | serverError (method msg : String)
  | ok (written : Nat)
deriving DecidableEq

/-- Observable effects of one run of Handler.Backup. -/
structure BackupEffects where
  response : HttpResponse
  /-- headers set via w.Header().Set before the body write -/
  headers : List (String × String)
  /-- whether ioutil.ReadAll(r.Body) was reached -/
  bodyRead : Bool
  /-- whether json.Unmarshal on the export spec was reached -/
  specParsed : Bool
  /-- the Retain flag of the parsed spec, when parsing succeeded -/
  retainRequested : Option Bool
  /-- whether bh.GenerateBackup was invoked -/
  backupInvoked : Bool
  /-- the archive filename, when GenerateBackup succeeded (the file then
  exists on disk) -/
  archiveCreated : Option String
  /-- the full byte string handed to w.Write, when a write occurred -/
  wroteBytes : Option String
  /-- whether os.Remove(filename) was called -/
  archiveRemoved : Bool
deriving DecidableEq

/-- The Content-Disposition header value built at endpoint.go line 109. -/
def contentDisposition (filename : String) : String :=
  "attachment; filename=\"" ++ filename ++ "\" ; " ++ "filename*=\"" ++ filename ++ "\""

/-- Shallow embedding of Handler.Backup (endpoint.go lines 60-131). -/
def backup (env : BackupEnv) : BackupEffects :=
  let method := "system.backup"
  if !env.ctx.Administrator then
    { response := .forbidden, headers := [], bodyRead := false, specParsed := false,
      retainRequested := none, backupInvoked := false, archiveCreated := none,
      wroteBytes := none, archiveRemoved := false }
  else
    match env.readBody with
    | .error e =>
      { response := .badRequest method e, headers := [], bodyRead := true,
        specParsed := false, retainRequested := none, backupInvoked := false,
        archiveCreated := none, wroteBytes := none, archiveRemoved := false }
    | .ok body =>
      match env.parseExportSpec body with
      | .error e =>
        { response := .badRequest method e, headers := [], bodyRead := true,
          specParsed := true, retainRequested := none, backupInvoked := false,
          archiveCreated := none, wroteBytes := none, archiveRemoved := false }
      | .ok spec =>
        match env.generateBackup spec with
        | .error e =>
          { response := .serverError method e, headers := [], bodyRead := true,
            specParsed := true, retainRequested := some spec.Retain,
            backupInvoked := true, archiveCreated := none, wroteBytes := none,
            archiveRemoved := false }
        | .ok filename =>
          match env.readFile filename with
          | .error e =>
            { response := .serverError method e, headers := [], bodyRead := true,
              specParsed := true, retainRequested := some spec.Retain,
              backupInvoked := true, archiveCreated := some filename,
              wroteBytes := none, archiveRemoved := false }
          | .ok bk =>
            let hdrs := [("Content-Type", "application/zip"),
                         ("Content-Disposition", contentDisposition filename),
                         ("Content-Length", toString bk.length),
                         ("x-documize-filename", filename)]
            match env.writeResp bk with
            | .error e =>
              { response := .serverError method e, headers := hdrs, bodyRead := true,
                specParsed := true, retainRequested := some spec.Retain,
                backupInvoked := true, archiveCreated := some filename,
                wroteBytes := some bk, archiveRemoved := false }
            | .ok x =>
              { response := .ok x, headers := hdrs, bodyRead := true,
                specParsed := true, retainRequested := some spec.Retain,
                backupInvoked := true, archiveCreated := some filename,
                wroteBytes := some bk,
                archiveRemoved := !spec.Retain }

/-- Whether a response is the success (zip stream) response. -/
def HttpResponse.isOk : HttpResponse → Bool
  | .ok _ => true
  | _ => false

/-! ### Concrete environments used to evaluate the model -/

/-- A run in which everything succeeds and retention is not requested. -/
def envSuccess : BackupEnv :=
  { ctx := { Administrator := true, UserID := "u1", OrgID := "o1" },
    readBody := .ok "{}",
    parseExportSpec := fun _ => .ok { Retain := false },
    generateBackup := fun _ => .ok "backup.zip",
    readFile := fun _ => .ok "ZIPDATA",
    writeResp := fun s => .ok s.length }

/-- A run in which the archive is generated but reading it back fails. -/
def envReadFileFails : BackupEnv :=
  { envSuccess with readFile := fun _ => .error "open backup.zip: disk failure" }

/-- A run by a non-administrator. -/
def envNonAdmin : BackupEnv :=
  { envSuccess with ctx := { Administrator := false, UserID := "u2", OrgID := "o1" } }

/-- A run in which reading the request body fails. -/
def envBodyFails : BackupEnv :=
  { envSuccess with readBody := .error "read: connection reset" }

/-! ### C1 -/

/-- C1 counterexample: the claim says the archive file is removed on every
failure path, but when GenerateBackup succeeds and the subsequent
ioutil.ReadFile fails, the handler returns a server error with the archive
file created and never removed: a failed export leaves the archive on disk. -/
theorem backup_failure_cleanup_counterexample :
    (backup envReadFileFails).response =
        .serverError "system.backup" "open backup.zip: disk failure"
      ∧ (backup envReadFileFails).archiveCreated = some "backup.zip"
      ∧ (backup envReadFileFails).archiveRemoved = false := by
  refine ⟨rfl, rfl, rfl⟩

/-- C1 amended: the archive file is removed exactly on the successful path
with retain=false; on every failure path the handler never removes it, so a
failure after archive generation leaves the archive file on disk. -/
theorem backup_failure_cleanup_amended (env : BackupEnv) :
    ((backup env).response.isOk = true →
      (backup env).archiveRemoved = ((backup env).retainRequested = some false))
    ∧ ((backup env).response.isOk = false → (backup env).archiveRemoved = false) := by
  rcases env with ⟨⟨admin, u, o⟩, rb, ps, gb, rf, wr⟩
  unfold backup
  cases admin <;> simp [HttpResponse.isOk]
  cases rb with
  | error e => simp [HttpResponse.isOk]
  | ok body =>
    cases hps : ps body with
    | error e => simp [hps, HttpResponse.isOk]
    | ok spec =>
      cases hgb : gb spec with
      | error e => simp [hps, hgb, HttpResponse.isOk]
      | ok fn =>
        cases hrf : rf fn with
        | error e => simp [hps, hgb, hrf, HttpResponse.isOk]
        | ok bk =>
          cases hwr : wr bk with
          | error e => simp [hps, hgb, hrf, hwr, HttpResponse.isOk]
          | ok x =>
            cases spec with
            | mk retain => cases retain <;> simp [hps, hgb, hrf, hwr, HttpResponse.isOk]

/-- C1 amended, witnessed on the all-success run and on the failing-read run. -/
theorem backup_failure_cleanup_amended_witness :
    (backup envSuccess).response.isOk = true
    ∧ (backup envSuccess).archiveRemoved = ((backup envSuccess).retainRequested = some false)
    ∧ (backup envReadFileFails).response.isOk = false
    ∧ (backup envReadFileFails).archiveRemoved = false :=
  ⟨by decide, (backup_failure_cleanup_amended envSuccess).1 (by decide),
   by decide, (backup_failure_cleanup_amended envReadFileFails).2 (by decide)⟩

/-! ### C2 -/

/-- C2: on every successful transfer the response carries
Content-Type: application/zip, a Content-Disposition attachment header
containing the archive filename, and the custom x-documize-filename header
carrying the filename (endpoint.go lines 107-114). -/
theorem backup_success_headers (env : BackupEnv) (n : Nat)
    (h : (backup env).response = .ok n) :
    ∃ filename,
      (backup env).archiveCreated = some filename
      ∧ ("Content-Type", "application/zip") ∈ (backup env).headers
      ∧ ("Content-Disposition",
          "attachment; filename=\"" ++ filename ++ "\" ; "
            ++ "filename*=\"" ++ filename ++ "\"") ∈ (backup env).headers
      ∧ ("x-documize-filename", filename) ∈ (backup env).headers := by
  rcases env with ⟨⟨admin, u, o⟩, rb, ps, gb, rf, wr⟩
  unfold backup at *
  cases admin <;> simp_all
  cases rb with
  | error e => simp_all
  | ok body =>
    cases hps : ps body with
    | error e => simp_all
    | ok spec =>
      cases hgb : gb spec with
      | error e => simp_all
      | ok fn =>
        cases hrf : rf fn with
        | error e => simp_all
        | ok bk =>
          cases hwr : wr bk with
          | error e => simp_all
          | ok x =>
            refine ⟨fn, by simp [hps, hgb, hrf, hwr, contentDisposition]⟩

/-- C2 witnessed on a concrete all-success run. -/
theorem backup_success_headers_witness :
    (backup envSuccess).response = .ok 7
    ∧ ∃ filename,
        (backup envSuccess).archiveCreated = some filename
        ∧ ("Content-Type", "application/zip") ∈ (backup envSuccess).headers
        ∧ ("Content-Disposition",
            "attachment; filename=\"" ++ filename ++ "\" ; "
              ++ "filename*=\"" ++ filename ++ "\"") ∈ (backup envSuccess).headers
        ∧ ("x-documize-filename", filename) ∈ (backup envSuccess).headers :=
  ⟨by decide, backup_success_headers envSuccess 7 (by decide)⟩

/-! ### C3 -/

/-- C3: a non-administrator request gets the forbidden response and the
handler returns before reading the body, parsing the export spec, invoking
the backup pipeline, or creating any archive file (endpoint.go 64-68). -/
theorem backup_forbidden_non_admin (env : BackupEnv)
    (h : env.ctx.Administrator = false) :
    (backup env).response = .forbidden
    ∧ (backup env).bodyRead = false
    ∧ (backup env).specParsed = false
    ∧ (backup env).backupInvoked = false
    ∧ (backup env).archiveCreated = none := by
  rcases env with ⟨⟨admin, u, o⟩, rb, ps, gb, rf, wr⟩
  simp_all [backup]

/-- C3 witnessed on a concrete non-administrator run. -/
theorem backup_forbidden_non_admin_witness :
    envNonAdmin.ctx.Administrator = false
    ∧ (backup envNonAdmin).response = .forbidden
    ∧ (backup envNonAdmin).bodyRead = false
    ∧ (backup envNonAdmin).specParsed = false
    ∧ (backup envNonAdmin).backupInvoked = false
    ∧ (backup envNonAdmin).archiveCreated = none :=
  ⟨by decide, backup_forbidden_non_admin envNonAdmin (by decide)⟩

/-! ### C4 -/

/-- C4: for an authorized request, each failure (body read, spec JSON
parse, backup generation, archive read, response write) is terminal and is
surfaced as a specific error response carrying the failure message, and the
success response occurs only when every stage succeeded (endpoint.go 70-122). -/
theorem backup_failures_terminal (env : BackupEnv)
    (hadmin : env.ctx.Administrator = true) :
    (∀ msg, env.readBody = .error msg →
      (backup env).response = .badRequest "system.backup" msg)
    ∧ (∀ body msg, env.readBody = .ok body → env.parseExportSpec body = .error msg →
      (backup env).response = .badRequest "system.backup" msg)
    ∧ (∀ body spec msg, env.readBody = .ok body → env.parseExportSpec body = .ok spec →
      env.generateBackup spec = .error msg →
      (backup env).response = .serverError "system.backup" msg)
    ∧ (∀ body spec fn msg, env.readBody = .ok body → env.parseExportSpec body = .ok spec →
      env.generateBackup spec = .ok fn → env.readFile fn = .error msg →
      (backup env).response = .serverError "system.backup" msg)
    ∧ (∀ body spec fn bk msg, env.readBody = .ok body → env.parseExportSpec body = .ok spec →
      env.generateBackup spec = .ok fn → env.readFile fn = .ok bk →
      env.writeResp bk = .error msg →
      (backup env).response = .serverError "system.backup" msg)
    ∧ (∀ n, (backup env).response = .ok n →
      ∃ body spec fn bk, env.readBody = .ok body ∧ env.parseExportSpec body = .ok spec
        ∧ env.generateBackup spec = .ok fn ∧ env.readFile fn = .ok bk
        ∧ env.writeResp bk = .ok n) := by
  refine ⟨?_, ?_, ?_, ?_, ?_, ?_⟩
  · intro msg hmsg; simp [backup, hadmin, hmsg]
  · intro body msg h1 h2; simp [backup, hadmin, h1, h2]
  · intro body spec msg h1 h2 h3; simp [backup, hadmin, h1, h2, h3]
  · intro body spec fn msg h1 h2 h3 h4; simp [backup, hadmin, h1, h2, h3, h4]
  · intro body spec fn bk msg h1 h2 h3 h4 h5; simp [backup, hadmin, h1, h2, h3, h4, h5]
  · intro n h
    unfold backup at h
    rw [hadmin] at h
    simp only [Bool.not_true, Bool.false_eq_true, if_false, ite_false] at h
    split at h
    next e heq => simp at h
    next body hrb =>
      split at h
      next e heq => simp at h
      next spec hps =>
        split at h
        next e heq => simp at h
        next fn hgb =>
          split at h
          next e heq => simp at h
          next bk hrf =>
            split at h
            next e heq => simp at h
            next x hwr =>
              simp only [HttpResponse.ok.injEq] at h
              subst h
              exact ⟨body, spec, fn, bk, hrb, hps, hgb, hrf, hwr⟩

/-- C4 witnessed: a failing body read surfaces as the bad-request response. -/
theorem backup_failures_terminal_witness :
    envBodyFails.ctx.Administrator = true
    ∧ (backup envBodyFails).response = .badRequest "system.backup" "read: connection reset" :=
  ⟨by decide,
   (backup_failures_terminal envBodyFails (by decide)).1 "read: connection reset" (by rfl)⟩

/-! ### C5 -/

/-- C5: whenever backup generation succeeds, the handler reads the whole
archive file into memory and the single response write carries exactly the
full file contents (no write happens if the file read fails); and when
retain=false, after a successful response write the archive file is
deleted (endpoint.go 98-130). -/
theorem backup_reads_whole_file_then_deletes (env : BackupEnv)
    (body : String) (spec : ExportSpec) (fn : String)
    (hadmin : env.ctx.Administrator = true)
    (hbody : env.readBody = .ok body)
    (hspec : env.parseExportSpec body = .ok spec)
    (hgen : env.generateBackup spec = .ok fn) :
    (∀ bk, env.readFile fn = .ok bk → (backup env).wroteBytes = some bk)
    ∧ (∀ msg, env.readFile fn = .error msg → (backup env).wroteBytes = none)
    ∧ (spec.Retain = false →
        ∀ bk n, env.readFile fn = .ok bk → env.writeResp bk = .ok n →
          (backup env).archiveRemoved = true) := by
  refine ⟨?_, ?_, ?_⟩
  · intro bk hbk
    cases hwr : env.writeResp bk with
    | error e => simp [backup, hadmin, hbody, hspec, hgen, hbk, hwr]
    | ok x => simp [backup, hadmin, hbody, hspec, hgen, hbk, hwr]
  · intro msg hmsg
    simp [backup, hadmin, hbody, hspec, hgen, hmsg]
  · intro hretain bk n hbk hwr
    simp [backup, hadmin, hbody, hspec, hgen, hbk, hwr, hretain]

/-- C5 witnessed on the all-success run with retain=false. -/
theorem backup_reads_whole_file_then_deletes_witness :
    (backup envSuccess).wroteBytes = some "ZIPDATA"
    ∧ (backup envSuccess).archiveRemoved = true :=
  ⟨(backup_reads_whole_file_then_deletes envSuccess "{}" ⟨false⟩ "backup.zip"
      rfl rfl rfl rfl).1 "ZIPDATA" rfl,
   (backup_reads_whole_file_then_deletes envSuccess "{}" ⟨false⟩ "backup.zip"
      rfl rfl rfl rfl).2.2 rfl "ZIPDATA" 7 rfl rfl⟩

/-! ### C6

The per-scope mutual-exclusion lock is not part of the sources in view:
endpoint.go only calls into the export pipeline. The lock is therefore
modelled from the specification and the claim is settled against that
model. -/

/-- Outcome of attempting to start a backup/restore operation on a scope. -/
inductive OpOutcome where
  | proceeded
  | conflictFailure
deriving DecidableEq

/-- Modelled from the spec: the orchestrator's exclusive per-scope lock
(spec section 5) — the missing core orchestrator code acquires an exclusive
per-tenant (or global) lock before starting; a second request for a scope
already held is rejected immediately with a ConflictFailure rather than
queued. The lock state is the set of scopes currently running. -/
def acquireScopeLock (locked : List String) (scope : String) :
    OpOutcome × List String :=
  if scope ∈ locked then (.conflictFailure, locked) else (.proceeded, scope :: locked)

/-- Modelled from the spec: releasing the per-scope lock on completion or
failure of the operation. -/
def releaseScopeLock (locked : List String) (scope : String) : List String :=
  locked.erase scope

/-- C6: when two operations on the same scope are in flight concurrently —
the second arrives while the first still holds the lock — the first
proceeds and the second is rejected immediately with ConflictFailure, so at
most one of the two reaches a successful outcome. -/
theorem scope_lock_mutual_exclusion (locked : List String) (scope : String)
    (hfree : scope ∉ locked) :
    (acquireScopeLock locked scope).1 = .proceeded
    ∧ (acquireScopeLock (acquireScopeLock locked scope).2 scope).1 = .conflictFailure := by
  simp [acquireScopeLock, hfree]

/-- C6 witnessed on a concrete tenant scope with no operation running. -/
theorem scope_lock_mutual_exclusion_witness :
    "tenant-1" ∉ ([] : List String)
    ∧ (acquireScopeLock [] "tenant-1").1 = .proceeded
    ∧ (acquireScopeLock (acquireScopeLock [] "tenant-1").2 "tenant-1").1 = .conflictFailure :=
  ⟨by decide, scope_lock_mutual_exclusion [] "tenant-1" (by decide)⟩

/-! ## GitHub issues report (core/section/github/issues.go)

The comparator issuesToSort.Less parses the Updated field with Go's
time.Parse and layout "January 2 2006, 15:04" (issuesTimeFormat); a parse
error is logged and yields Go's zero time. We embed calendar times at the
resolution of that layout (year, month, day, hour, minute; seconds and
nanoseconds are always zero for times produced or parsed with it) and model
time.Parse for this fixed layout, including Go's range validation of day,
hour and minute, with errors collapsing to the zero time exactly as the
source's log-and-continue does. -/

/-- A Go time.Time at the resolution of issuesTimeFormat. -/
structure GoTime where
  year : Nat
  month : Nat
  day : Nat
  hour : Nat
  minute : Nat
deriving DecidableEq

/-- Go's zero time.Time: January 1, year 1, 00:00. -/
def goZeroTime : GoTime := ⟨1, 1, 1, 0, 0⟩

/-- time.Time.Before: chronological strict order, i.e. lexicographic on
(year, month, day, hour, minute) for times of this resolution. -/
def timeBefore (a b : GoTime) : Bool :=
  decide (a.year < b.year ∨ (a.year = b.year ∧
    (a.month < b.month ∨ (a.month = b.month ∧
      (a.day < b.day ∨ (a.day = b.day ∧
        (a.hour < b.hour ∨ (a.hour = b.hour ∧ a.minute < b.minute))))))))

/-- The layout string used by the issues report. -/
def issuesTimeFormat : String := "January 2 2006, 15:04"

/-- The time package's longMonthNames table with month numbers. -/
def monthNames : List (String × Nat) :=
  [("January", 1), ("February", 2), ("March", 3), ("April", 4),
   ("May", 5), ("June", 6), ("July", 7), ("August", 8),
   ("September", 9), ("October", 10), ("November", 11), ("December", 12)]

/-- The time package's lookup of a month name in the table. -/
def lookupMonth : List (String × Nat) → String → Option Nat
  | [], _ => none
  | p :: rest, s => if s = p.1 then some p.2 else lookupMonth rest s

/-- Month number for a full English month name (time package month names). -/
def monthNum (s : String) : Option Nat := lookupMonth monthNames s

/-- English name of a month number (used by time.Time.Format). -/
def monthName (m : Nat) : String :=
  if m = 1 then "January"
  else if m = 2 then "February"
  else if m = 3 then "March"
  else if m = 4 then "April"
  else if m = 5 then "May"
  else if m = 6 then "June"
  else if m = 7 then "July"
  else if m = 8 then "August"
  else if m = 9 then "September"
  else if m = 10 then "October"
  else if m = 11 then "November"
  else "December"

/-- Gregorian leap-year rule used by the time package. -/
def isLeapYear (y : Nat) : Bool :=
  y % 4 = 0 && (y % 100 ≠ 0 || y % 400 = 0)

/-- Days in a month, as validated by time.Parse. -/
def daysInMonth (y m : Nat) : Nat :=
  if m = 2 then (if isLeapYear y then 29 else 28)
  else if m = 4 ∨ m = 6 ∨ m = 9 ∨ m = 11 then 30
  else 31

/-- Longest run of characters satisfying p, with the remainder. -/
def span (p : Char → Bool) : List Char → List Char × List Char
  | [] => ([], [])
  | c :: cs =>
    if p c then
      let r := span p cs
      (c :: r.1, r.2)
    else ([], c :: cs)

/-- Decimal value of a digit run (time package getnum). -/
def digitsToNat (cs : List Char) : Nat :=
  cs.foldl (fun a c => a * 10 + (c.toNat - 48)) 0

/-- Range validation performed by time.Parse before returning a Time:
day must fit the month (hence at most 31), hour below 24, minute below 60. -/
def mkValidTime (y mo d h mi : Nat) : Option GoTime :=
  if 1 ≤ d ∧ d ≤ daysInMonth y mo ∧ h ≤ 23 ∧ mi ≤ 59 then
    some ⟨y, mo, d, h, mi⟩
  else none

/-- time.Parse specialised to the fixed layout "January 2 2006, 15:04":
full month name, space, 1-2 digit day, space, 4 digit year, comma, space,
2 digit hour, colon, 2 digit minute, end of input, then range validation. -/
def parseParts (cs : List Char) : Option GoTime :=
  let mspan := span Char.isAlpha cs
  match monthNum (String.mk mspan.1) with
  | none => none
  | some mo =>
    match mspan.2 with
    | ' ' :: rest1 =>
      let dspan := span Char.isDigit rest1
      if dspan.1.length = 0 ∨ 2 < dspan.1.length then none
      else
        match dspan.2 with
        | ' ' :: rest2 =>
          let yspan := span Char.isDigit rest2
          if yspan.1.length ≠ 4 then none
          else
            match yspan.2 with
            | ',' :: ' ' :: rest3 =>
              let hspan := span Char.isDigit rest3
              if hspan.1.length ≠ 2 then none
              else
                match hspan.2 with
                | ':' :: rest4 =>
                  let mispan := span Char.isDigit rest4
                  if mispan.1.length ≠ 2 then none
                  else
                    match mispan.2 with
                    | [] => mkValidTime (digitsToNat yspan.1) mo (digitsToNat dspan.1)
                        (digitsToNat hspan.1) (digitsToNat mispan.1)
                    | _ => none
                | _ => none
            | _ => none
        | _ => none
    | _ => none

/-- time.Parse(issuesTimeFormat, s) with the source's log-and-continue
error handling (log.IfErr): a failed parse yields the zero time. -/
def parseIssuesTime (s : String) : GoTime :=
  match parseParts s.data with
  | some t => t
  | none => goZeroTime

/-- Zero-pad a number to two digits (time.Time.Format for 15 and 04). -/
def pad2 (n : Nat) : String :=
  if n < 10 then "0" ++ toString n else toString n

/-- Zero-pad a year to four digits (time.Time.Format for 2006). -/
def pad4 (n : Nat) : String :=
  if n < 10 then "000" ++ toString n
  else if n < 100 then "00" ++ toString n
  else if n < 1000 then "0" ++ toString n
  else toString n

/-- time.Time.Format(issuesTimeFormat). -/
def formatIssuesTime (t : GoTime) : String :=
  monthName t.month ++ " " ++ toString t.day ++ " " ++ pad4 t.year ++ ", "
    ++ pad2 t.hour ++ ":" ++ pad2 t.minute

/-! ### Bounds established by the parser -/

/-- The component ranges guaranteed for any parsed (or zero) time. -/
def TimeBounded (t : GoTime) : Prop :=
  1 ≤ t.month ∧ t.month ≤ 12 ∧ 1 ≤ t.day ∧ t.day ≤ 31 ∧ t.hour ≤ 23 ∧ t.minute ≤ 59

theorem lookupMonth_mem (l : List (String × Nat)) (s : String) (m : Nat)
    (h : lookupMonth l s = some m) : ∃ p ∈ l, p.2 = m := by
  induction l with
  | nil => exact Option.noConfusion h
  | cons p rest ih =>
    unfold lookupMonth at h
    split at h
    · injection h with h
      exact ⟨p, List.mem_cons_self p rest, h⟩
    · obtain ⟨q, hq, hm⟩ := ih h
      exact ⟨q, List.mem_cons_of_mem _ hq, hm⟩

theorem monthNum_bounds (s : String) (m : Nat) (h : monthNum s = some m) :
    1 ≤ m ∧ m ≤ 12 := by
  obtain ⟨p, hp, hm⟩ := lookupMonth_mem _ _ _ h
  subst hm
  simp only [monthNames, List.mem_cons, List.not_mem_nil, or_false] at hp
  rcases hp with rfl | rfl | rfl | rfl | rfl | rfl | rfl | rfl | rfl | rfl | rfl | rfl <;>
    decide

theorem daysInMonth_le (y m : Nat) : daysInMonth y m ≤ 31 := by
  unfold daysInMonth
  split_ifs <;> omega

theorem mkValidTime_bounds (y mo d h mi : Nat) (t : GoTime)
    (hmo : 1 ≤ mo ∧ mo ≤ 12) (heq : mkValidTime y mo d h mi = some t) :
    TimeBounded t := by
  unfold mkValidTime at heq
  split_ifs at heq with hck
  · injection heq with heq
    subst heq
    exact ⟨hmo.1, hmo.2, hck.1, le_trans hck.2.1 (daysInMonth_le y mo),
      hck.2.2.1, hck.2.2.2⟩

theorem parseParts_bounds (cs : List Char) (t : GoTime)
    (h : parseParts cs = some t) : TimeBounded t := by
  simp only [parseParts] at h
  split at h
  · cases h
  next mo hmo =>
    split at h
    rotate_left
    · cases h
    next rest1 =>
      split at h
      · cases h
      split at h
      rotate_left
      · cases h
      next rest2 =>
        split at h
        · cases h
        split at h
        rotate_left
        · cases h
        next rest3 =>
          split at h
          · cases h
          split at h
          rotate_left
          · cases h
          next rest4 =>
            split at h
            · cases h
            split at h
            · exact mkValidTime_bounds _ _ _ _ _ _ (monthNum_bounds _ _ hmo) h
            · cases h

theorem parseIssuesTime_bounds (s : String) : TimeBounded (parseIssuesTime s) := by
  unfold parseIssuesTime
  split
  next t ht => exact parseParts_bounds _ _ ht
  next => exact ⟨by decide, by decide, by decide, by decide, by decide, by decide⟩

/-! ### Issue model and the report comparator -/

/-- Sentinel for an issue with no milestone; declared elsewhere in the
github section package (milestones code) and compared against here. -/
def noMilestone : String := "no milestone"

/-- Default avatar constant declared elsewhere in the github section package. -/
def githubGravatar : String :=
  "https://github.githubassets.com/images/gravatars/gravatar-user-420.png"

/-- githubIssue (issues.go lines 24-38). template.URL and template.HTML are
strings; the ID is the GitHub issue number, which is non-negative. -/
structure githubIssue where
  ID : Nat
  Date : String
  Updated : String
  Message : String
  URL : String
  Name : String
  Avatar : String
  Labels : String
  LabelNames : List String
  IsOpen : Bool
  Repo : String
  Private : Bool
  Milestone : String
deriving DecidableEq

/-- githubSharedLabel (issues.go lines 40-44). -/
structure githubSharedLabel where
  Name : String
  Count : Nat
  Repos : String
deriving DecidableEq

/-- issuesToSort.Less (issues.go lines 51-74). Go string comparison is
byte-lexicographic, which for UTF-8 agrees with Lean's String order; the
date comparison parses both Updated fields and compares with Before, a
parse failure having produced the zero time. -/
def issueLess (a b : githubIssue) : Bool :=
  if a.Milestone ≠ noMilestone ∧ b.Milestone = noMilestone then true
  else if a.Milestone = noMilestone ∧ b.Milestone ≠ noMilestone then false
  else if a.Milestone ≠ b.Milestone then decide (a.Milestone < b.Milestone)
  else if !a.IsOpen && b.IsOpen then true
  else if a.IsOpen && !b.IsOpen then false
  else timeBefore (parseIssuesTime a.Updated) (parseIssuesTime b.Updated)

/-- Positional encoding of a bounded time; strictly monotone with respect
to chronological order on times within the parser's component ranges. -/
def timeEnc (t : GoTime) : Nat :=
  (((t.year * 16 + t.month) * 32 + t.day) * 32 + t.hour) * 64 + t.minute

theorem timeBefore_iff_enc (a b : GoTime)
    (ha : TimeBounded a) (hb : TimeBounded b) :
    (timeBefore a b = true) ↔ timeEnc a < timeEnc b := by
  obtain ⟨ha1, ha2, ha3, ha4, ha5, ha6⟩ := ha
  obtain ⟨hb1, hb2, hb3, hb4, hb5, hb6⟩ := hb
  unfold timeBefore timeEnc
  simp only [decide_eq_true_eq]
  omega

/-- The sort key realised by issuesToSort.Less: milestone presence first
(issues with a milestone ahead of those without), then milestone name,
then open state (closed ahead of open), then the parsed Updated time. -/
def issueKey (v : githubIssue) : Lex (Nat × Lex (String × Lex (Nat × Nat))) :=
  toLex ((if v.Milestone = noMilestone then 1 else 0),
    toLex (v.Milestone,
      toLex ((if v.IsOpen then 1 else 0),
        timeEnc (parseIssuesTime v.Updated))))

theorem issueLess_iff_key (a b : githubIssue) :
    (issueLess a b = true) ↔ issueKey a < issueKey b := by
  have henc := timeBefore_iff_enc _ _
    (parseIssuesTime_bounds a.Updated) (parseIssuesTime_bounds b.Updated)
  unfold issueLess issueKey
  simp only [Prod.Lex.lt_iff]
  by_cases hA : a.Milestone = noMilestone <;> by_cases hB : b.Milestone = noMilestone
  · have hM : a.Milestone = b.Milestone := hA.trans hB.symm
    cases ha : a.IsOpen <;> cases hb : b.IsOpen <;> simp [hA, hB, hM, ha, hb, henc]
  · simp [hA, hB]
  · simp [hA, hB]
  · by_cases hM : a.Milestone = b.Milestone
    · cases ha : a.IsOpen <;> cases hb : b.IsOpen <;> simp [hA, hB, hM, ha, hb, henc]
    · simp [hA, hB, hM, decide_eq_true_eq]

/-- The non-strict relation guaranteed between consecutive elements by
sort.Sort with the issuesToSort comparator. -/
def issueLE (a b : githubIssue) : Prop := issueLess b a = false

instance : DecidableRel issueLE :=
  fun a b => inferInstanceAs (Decidable (issueLess b a = false))

theorem issueLE_iff (a b : githubIssue) :
    issueLE a b ↔ issueKey a ≤ issueKey b := by
  unfold issueLE
  rw [Bool.eq_false_iff, ne_eq, issueLess_iff_key, not_lt]

instance : IsTotal githubIssue issueLE :=
  ⟨fun a b => by
    rw [issueLE_iff, issueLE_iff]
    exact le_total _ _⟩

instance : IsTrans githubIssue issueLE :=
  ⟨fun a b c hab hbc => by
    rw [issueLE_iff] at *
    exact le_trans hab hbc⟩

/-! ### C7 -/

/-- C7: the comparator issuesToSort.Less puts issues with a milestone
before issues without one; among equal milestones it puts closed issues
before open ones; among issues equal in milestone and open state it orders
ascending by the Updated field parsed with layout "January 2 2006, 15:04";
and it is asymmetric: Less(i,j) and Less(j,i) are never both true. -/
theorem issuesToSort_Less_spec (i j : githubIssue) :
    (i.Milestone ≠ noMilestone → j.Milestone = noMilestone → issueLess i j = true)
    ∧ (i.Milestone = j.Milestone → i.IsOpen = false → j.IsOpen = true →
        issueLess i j = true)
    ∧ (i.Milestone = j.Milestone → i.IsOpen = j.IsOpen →
        ((issueLess i j = true) ↔
          timeBefore (parseIssuesTime i.Updated) (parseIssuesTime j.Updated) = true))
    ∧ (issueLess i j = true → issueLess j i = false) := by
  refine ⟨?_, ?_, ?_, ?_⟩
  · intro h1 h2
    unfold issueLess
    simp [h1, h2]
  · intro hms ho1 ho2
    unfold issueLess
    by_cases hA : i.Milestone = noMilestone
    · have hB : j.Milestone = noMilestone := hms.symm.trans hA
      simp [hA, hB, hms, ho1, ho2]
    · have hB : j.Milestone ≠ noMilestone := fun hB => hA (hms.trans hB)
      simp [hA, hB, hms, ho1, ho2]
  · intro hms hop
    unfold issueLess
    by_cases hA : i.Milestone = noMilestone
    · have hB : j.Milestone = noMilestone := hms.symm.trans hA
      cases hio : i.IsOpen <;> simp [hA, hB, hms, hio, hop ▸ hio]
    · have hB : j.Milestone ≠ noMilestone := fun hB => hA (hms.trans hB)
      cases hio : i.IsOpen <;> simp [hA, hB, hms, hio, hop ▸ hio]
  · intro h
    rw [issueLess_iff_key] at h
    rw [Bool.eq_false_iff, ne_eq, issueLess_iff_key]
    exact lt_asymm h

/-- A closed issue carrying a milestone. -/
def issueEx1 : githubIssue :=
  { ID := 1, Date := "March 1 2020, 09:00", Updated := "March 3 2020, 10:00",
    Message := "fix crash", URL := "u1", Name := "alice", Avatar := "a1",
    Labels := "", LabelNames := ["bug"], IsOpen := false, Repo := "r",
    Private := false, Milestone := "v1" }

/-- An open issue without a milestone. -/
def issueEx2 : githubIssue :=
  { ID := 2, Date := "March 2 2020, 09:00", Updated := "March 4 2020, 10:00",
    Message := "add docs", URL := "u2", Name := "bob", Avatar := "a2",
    Labels := "", LabelNames := ["bug"], IsOpen := true, Repo := "r",
    Private := false, Milestone := noMilestone }

/-- C7 witnessed: the milestone-bearing issue sorts before the
milestone-less one and the comparator is not symmetric on the pair. -/
theorem issuesToSort_Less_spec_witness :
    issueEx1.Milestone ≠ noMilestone
    ∧ issueEx2.Milestone = noMilestone
    ∧ issueLess issueEx1 issueEx2 = true
    ∧ issueLess issueEx2 issueEx1 = false := by
  have h1 : issueEx1.Milestone ≠ noMilestone := by decide
  have h2 : issueEx2.Milestone = noMilestone := by decide
  have hlt := (issuesToSort_Less_spec issueEx1 issueEx2).1 h1 h2
  exact ⟨h1, h2, hlt, (issuesToSort_Less_spec issueEx1 issueEx2).2.2.2 hlt⟩

/-! ### Fetching and assembling the issues list (issues.go 92-175)

The go-github client call Issues.ListByRepo is external: it is supplied as
a function from owner, repo and options to a result. The embedding also
returns the list of client calls made, as the observable effect needed to
state which repositories were fetched. -/

/-- A list entry of the section configuration (fields read by getIssues;
the struct is declared elsewhere in the package). -/
structure githubBranch where
  Owner : String
  Repo : String
  Included : Bool
  Private : Bool
deriving DecidableEq

/-- The section configuration fields read by getIssues and refreshIssues
(the struct is declared elsewhere in the package). The Since time is kept
opaque as its formatted value. -/
structure githubConfig where
  Lists : List githubBranch
  BranchLines : Nat
  SincePtr : Option String
  Owner : String

/-- gogithub.IssueListByRepoOptions as populated at issues.go 116-123.
The Go field named Sort is rendered SortBy because Sort is reserved here. -/
structure IssueListByRepoOptions where
  SortBy : String
  State : String
  PerPage : Nat
  Since : Option String
deriving DecidableEq

/-- One call made to client.Issues.ListByRepo. -/
structure FetchCall where
  owner : String
  repo : String
  opts : IssueListByRepoOptions
deriving DecidableEq

/-- gogithub.Label fields dereferenced by wrapLabels. -/
structure rawLabel where
  Name : String
  Color : String
deriving DecidableEq

/-- gogithub.User fields read at issues.go 132-140: AvatarURL is only
dereferenced when Login is present, as in the source. -/
structure rawUser where
  Login : Option String
  AvatarURL : String
deriving DecidableEq

/-- gogithub.Milestone field read at issues.go 141-146. -/
structure rawMilestone where
  Title : Option String
deriving DecidableEq

/-- gogithub.Issue fields read at issues.go 131-163. -/
structure rawIssue where
  Number : Nat
  Title : String
  State : String
  HTMLURL : String
  CreatedAt : GoTime
  UpdatedAt : GoTime
  Assignee : Option rawUser
  Milestone : Option rawMilestone
  Labels : List rawLabel
deriving DecidableEq

/-- The external go-github client: owner, repo, options to issues. -/
abbrev GithubFetch :=
  String → String → IssueListByRepoOptions → Except String (List rawIssue)

/-- wrapLabels (issues.go 92-99): builds the label HTML and name list. -/
def wrapLabels (labels : List rawLabel) : String × List String :=
  labels.foldl
    (fun acc ll =>
      (acc.1 ++ "<span class=\"github-issue-label\" style=\"background-color:#"
          ++ ll.Color ++ "\">" ++ ll.Name ++ "</span> ",
       acc.2 ++ [ll.Name]))
    ("", [])

/-- Characters after the first slash. -/
def dropThroughSlash : List Char → List Char
  | [] => []
  | c :: cs => if c = '/' then cs else dropThroughSlash cs

/-- repoName helper declared elsewhere in the package: the repository part
of an owner/repo string. -/
def repoName (rName : String) : String := String.mk (dropThroughSlash rName.data)

/-- The struct literal built for each fetched issue (issues.go 131-163). -/
def convertIssue (orb : githubBranch) (rName : String) (v : rawIssue) : githubIssue :=
  let n := match v.Assignee with
    | some u => match u.Login with
      | some l => l
      | none => "(unassigned)"
    | none => "(unassigned)"
  let av := match v.Assignee with
    | some u => match u.Login with
      | some _ => u.AvatarURL
      | none => githubGravatar
    | none => githubGravatar
  let ms := match v.Milestone with
    | some mst => match mst.Title with
      | some t => t
      | none => noMilestone
    | none => noMilestone
  { Name := n, Avatar := av, Message := v.Title,
    Date := formatIssuesTime v.CreatedAt,
    Updated := formatIssuesTime v.UpdatedAt,
    URL := v.HTMLURL,
    Labels := (wrapLabels v.Labels).1,
    LabelNames := (wrapLabels v.Labels).2,
    ID := v.Number,
    IsOpen := v.State == "open",
    Repo := repoName rName,
    Private := orb.Private,
    Milestone := ms }

/-- The options built for one state pass (issues.go 116-123): Since is
only set for the closed pass when SincePtr is non-nil. -/
def mkOpts (config : githubConfig) (state : String) : IssueListByRepoOptions :=
  { SortBy := "updated", State := state, PerPage := config.BranchLines,
    Since := if config.SincePtr.isSome ∧ state = "closed" then config.SincePtr else none }

/-- Running state of the getIssues loop: issues accumulated so far, the
hadRepo set, and the client calls made. -/
structure GetState where
  ret : List githubIssue
  hadRepo : List String
  calls : List FetchCall

/-- One state pass over a repository (the body of the inner loop at
issues.go 114-164): build options, call the client, convert and append. -/
def fetchPass (fetch : GithubFetch) (config : githubConfig) (orb : githubBranch)
    (rName state : String) (s : GetState) : GetState × Option String :=
  let opts := mkOpts config state
  let s1 : GetState := { s with calls := s.calls ++ [⟨orb.Owner, orb.Repo, opts⟩] }
  match fetch orb.Owner orb.Repo opts with
  | .error e => (s1, some e)
  | .ok guff => ({ s1 with ret := s1.ret ++ guff.map (convertIssue orb rName) }, none)

/-- The outer loop of getIssues (issues.go 107-169): skip entries not
Included, skip repositories already fetched, otherwise fetch the open pass
then the closed pass, returning early with the partial result on error. -/
def getIssuesAux (fetch : GithubFetch) (config : githubConfig) :
    List githubBranch → GetState → GetState × Option String
  | [], s => (s, none)
  | orb :: rest, s =>
    if orb.Included then
      let rName := orb.Owner ++ "/" ++ orb.Repo
      if rName ∈ s.hadRepo then
        getIssuesAux fetch config rest s
      else
        match fetchPass fetch config orb rName "open" s with
        | (s1, some e) => (s1, some e)
        | (s1, none) =>
          match fetchPass fetch config orb rName "closed" s1 with
          | (s2, some e) => (s2, some e)
          | (s2, none) =>
            getIssuesAux fetch config rest { s2 with hadRepo := s2.hadRepo ++ [rName] }
    else getIssuesAux fetch config rest s

/-- getIssues (issues.go 101-175): runs the loop from the empty state and
sorts with sort.Sort(issuesToSort(ret)) on the no-error path only; the
sort is modelled by insertion sort into the comparator's non-strict order,
realising sort.Sort's postcondition. Returns (issues, error, calls). -/
def getIssues (fetch : GithubFetch) (config : githubConfig) :
    List githubIssue × Option String × List FetchCall :=
  match getIssuesAux fetch config config.Lists ⟨[], [], []⟩ with
  | (s, some e) => (s.ret, some e, s.calls)
  | (s, none) => (List.insertionSort issueLE s.ret, none, s.calls)

/-! ### refreshIssues (issues.go 177-219) -/

/-- The render fields written by refreshIssues (the full render struct is
declared elsewhere in the package). -/
structure githubRender where
  Issues : List githubIssue
  OpenIssues : Nat
  ClosedIssues : Nat
  HasIssues : Bool
  SharedLabels : List githubSharedLabel
  HasSharedLabels : Bool

/-- sharedLabels[lab] = append(sharedLabels[lab], v.Repo): the map is an
association list keyed by label name, appending one repo per occurrence. -/
def addOcc : List (String × List String) → String × String → List (String × List String)
  | [], p => [(p.1, [p.2])]
  | q :: rest, p =>
    if q.1 = p.1 then (q.1, q.2 ++ [p.2]) :: rest else q :: addOcc rest p

/-- The (label, repo) occurrence stream of the nested loop at
issues.go 187-196: one pair per label of each issue, in order. -/
def labelOccs (issues : List githubIssue) : List (String × String) :=
  issues.flatMap (fun v => v.LabelNames.map (fun lab => (lab, v.Repo)))

/-- The sharedLabels map after the loop. -/
def buildShared (issues : List githubIssue) : List (String × List String) :=
  (labelOccs issues).foldl addOcc []

/-- One repository link of the shared-label rendering (issues.go 208-209). -/
def linkFor (owner name repo : String) : String :=
  "<a href='https://github.com/" ++ owner ++ "/" ++ repo
    ++ "/issues?q=is%3Aissue+label%3A" ++ name ++ "'>" ++ repo ++ "</a>"

/-- The comma-separated links built at issues.go 203-211. -/
def renderShared (owner name : String) (repos : List String) : String :=
  match repos with
  | [] => ""
  | r :: rest => rest.foldl (fun acc r2 => acc ++ ", " ++ linkFor owner name r2)
      (linkFor owner name r)

/-- The non-strict relation guaranteed between consecutive elements by
sort.Sort with the sharedLabelsSort comparator (Less is Name <). -/
def sharedLabelLE (a b : githubSharedLabel) : Prop := ¬ b.Name < a.Name

instance : DecidableRel sharedLabelLE :=
  fun a b => inferInstanceAs (Decidable (¬ b.Name < a.Name))

instance : IsTotal githubSharedLabel sharedLabelLE :=
  ⟨fun a b => (le_total a.Name b.Name).imp not_lt.mpr not_lt.mpr⟩

instance : IsTrans githubSharedLabel sharedLabelLE :=
  ⟨fun a b c hab hbc => by
    unfold sharedLabelLE at *
    rw [not_lt] at *
    exact le_trans hab hbc⟩

/-- The shared-label entries kept by the filter at issues.go 199-214:
labels with more than one occurrence, with their count and repo links. -/
def sharedEntries (owner : String) (issues : List githubIssue) :
    List githubSharedLabel :=
  (buildShared issues).filterMap
    (fun q => if 1 < q.2.length then
        some { Name := q.1, Count := q.2.length,
               Repos := renderShared owner q.1 q.2 }
      else none)

/-- refreshIssues (issues.go 177-219): fetch, count open and closed,
flag HasIssues, collect labels occurring more than once with their repo
links, sort them by name, flag HasSharedLabels. On a fetch error the
issues are assigned and the error is returned before any counting. -/
def refreshIssues (gr : githubRender) (config : githubConfig) (fetch : GithubFetch) :
    githubRender × Option String :=
  match getIssues fetch config with
  | (issues, some e, _) => ({ gr with Issues := issues }, some e)
  | (issues, none, _) =>
    let openCount := issues.countP (·.IsOpen)
    let closedCount := issues.countP (fun v => !v.IsOpen)
    let sharedSorted := List.insertionSort sharedLabelLE (sharedEntries config.Owner issues)
    ({ gr with
        Issues := issues,
        OpenIssues := openCount,
        ClosedIssues := closedCount,
        HasIssues := decide (0 < openCount + closedCount),
        SharedLabels := sharedSorted,
        HasSharedLabels := decide (0 < sharedSorted.length) }, none)

/-! ### The sharedLabels map: lookup characterisation -/

/-- Reading the association-list map (Go map indexing, [] when absent). -/
def lookupRepos : List (String × List String) → String → List String
  | [], _ => []
  | q :: rest, lab => if q.1 = lab then q.2 else lookupRepos rest lab

/-- Well-formedness of the map: distinct keys, no empty value lists. -/
def GoodMap (m : List (String × List String)) : Prop :=
  (m.map Prod.fst).Nodup ∧ ∀ q ∈ m, q.2 ≠ []

theorem lookupRepos_addOcc (m : List (String × List String))
    (p : String × String) (lab : String) :
    lookupRepos (addOcc m p) lab =
      if p.1 = lab then lookupRepos m lab ++ [p.2] else lookupRepos m lab := by
  induction m with
  | nil =>
    simp only [addOcc, lookupRepos]
    by_cases h : p.1 = lab <;> simp [h]
  | cons q rest ih =>
    by_cases hq : q.1 = p.1
    · have hswap : addOcc (q :: rest) p = (q.1, q.2 ++ [p.2]) :: rest := by
        simp [addOcc, hq]
      rw [hswap]
      by_cases hl : q.1 = lab
      · have hpl : p.1 = lab := hq.symm.trans hl
        simp [lookupRepos, hl, hpl]
      · have hpl : p.1 ≠ lab := fun hp2 => hl (hq.trans hp2)
        simp [lookupRepos, hl, hpl]
    · have hstep : addOcc (q :: rest) p = q :: addOcc rest p := by
        simp [addOcc, hq]
      rw [hstep]
      by_cases hl : q.1 = lab
      · have hpl : p.1 ≠ lab := fun hp2 => hq (hl.trans hp2.symm)
        simp [lookupRepos, hl, hpl]
      · simp [lookupRepos, hl, ih]

theorem keys_addOcc (m : List (String × List String)) (p : String × String) :
    (addOcc m p).map Prod.fst =
      if p.1 ∈ m.map Prod.fst then m.map Prod.fst else m.map Prod.fst ++ [p.1] := by
  induction m with
  | nil => simp [addOcc]
  | cons q rest ih =>
    by_cases hq : q.1 = p.1
    · have hswap : addOcc (q :: rest) p = (q.1, q.2 ++ [p.2]) :: rest := by
        simp [addOcc, hq]
      rw [hswap]
      have hmem : p.1 ∈ (q :: rest).map Prod.fst := by
        simp [List.mem_cons, hq.symm]
      rw [if_pos hmem]
      simp
    · have hstep : addOcc (q :: rest) p = q :: addOcc rest p := by
        simp [addOcc, hq]
      rw [hstep]
      simp only [List.map_cons]
      rw [ih]
      by_cases hm : p.1 ∈ rest.map Prod.fst
      · rw [if_pos hm, if_pos (by simp [List.mem_cons, hm])]
      · rw [if_neg hm, if_neg ?_]
        · simp
        · simp only [List.map_cons, List.mem_cons]
          push_neg
          exact ⟨fun h => hq h.symm, hm⟩

theorem addOcc_values (m : List (String × List String)) (p : String × String)
    (h : ∀ q ∈ m, q.2 ≠ []) : ∀ q ∈ addOcc m p, q.2 ≠ [] := by
  induction m with
  | nil =>
    intro q hq
    simp only [addOcc, List.mem_singleton] at hq
    subst hq
    simp
  | cons r rest ih =>
    intro q hq
    simp only [addOcc] at hq
    split_ifs at hq with hr
    · rcases List.mem_cons.mp hq with rfl | hq2
      · simp
      · exact h q (List.mem_cons_of_mem _ hq2)
    · rcases List.mem_cons.mp hq with rfl | hq2
      · exact h q (List.mem_cons_self _ _)
      · exact ih (fun x hx => h x (List.mem_cons_of_mem _ hx)) q hq2

theorem addOcc_good (m : List (String × List String)) (p : String × String)
    (h : GoodMap m) : GoodMap (addOcc m p) := by
  obtain ⟨hnd, hne⟩ := h
  constructor
  · rw [keys_addOcc]
    split_ifs with hp
    · exact hnd
    · simp only [List.nodup_append, List.nodup_cons, List.nodup_nil]
      exact ⟨hnd, by simp, by simpa using fun hx => hp hx⟩
  · exact addOcc_values m p hne

theorem foldl_addOcc_good (pairs : List (String × String)) :
    ∀ m, GoodMap m → GoodMap (pairs.foldl addOcc m) := by
  induction pairs with
  | nil => intro m h; exact h
  | cons p rest ih =>
    intro m h
    exact ih _ (addOcc_good m p h)

theorem foldl_addOcc_length (pairs : List (String × String)) :
    ∀ (m : List (String × List String)) (lab : String),
      (lookupRepos (pairs.foldl addOcc m) lab).length
        = (lookupRepos m lab).length + (pairs.map Prod.fst).count lab := by
  induction pairs with
  | nil => intro m lab; simp
  | cons p rest ih =>
    intro m lab
    simp only [List.foldl_cons, List.map_cons, List.count_cons]
    rw [ih, lookupRepos_addOcc]
    by_cases h : p.1 = lab <;> simp [h] <;> omega

theorem lookupRepos_of_mem (m : List (String × List String))
    (hnd : (m.map Prod.fst).Nodup) (q : String × List String) (hq : q ∈ m) :
    lookupRepos m q.1 = q.2 := by
  induction m with
  | nil => cases hq
  | cons r rest ih =>
    rcases List.mem_cons.mp hq with rfl | hq2
    · simp [lookupRepos]
    · have hne : r.1 ≠ q.1 := by
        intro he
        have : q.1 ∈ rest.map Prod.fst := List.mem_map_of_mem Prod.fst hq2
        rw [← he] at this
        exact (List.nodup_cons.mp (by simpa using hnd)).1 this
      simp only [lookupRepos, if_neg hne]
      exact ih (List.nodup_cons.mp (by simpa using hnd)).2 hq2

theorem mem_of_lookupRepos (m : List (String × List String)) (lab : String)
    (hne : lookupRepos m lab ≠ []) : (lab, lookupRepos m lab) ∈ m := by
  induction m with
  | nil => simp [lookupRepos] at hne
  | cons r rest ih =>
    by_cases hr : r.1 = lab
    · simp only [lookupRepos, if_pos hr] at hne ⊢
      have hpair : (lab, r.2) = r := by rw [← hr]
      rw [hpair]
      exact List.mem_cons_self _ _
    · simp only [lookupRepos, if_neg hr] at hne ⊢
      exact List.mem_cons_of_mem _ (ih hne)

theorem countP_open_closed (l : List githubIssue) :
    l.countP (·.IsOpen) + l.countP (fun v => !v.IsOpen) = l.length := by
  induction l with
  | nil => rfl
  | cons a t ih =>
    simp only [List.countP_cons]
    cases h : a.IsOpen <;> simp [h] <;> omega

theorem map_fst_labelOccs (issues : List githubIssue) :
    (labelOccs issues).map Prod.fst = issues.flatMap githubIssue.LabelNames := by
  induction issues with
  | nil => rfl
  | cons v rest ih =>
    simp only [labelOccs, List.flatMap_cons, List.map_append] at *
    rw [ih, List.map_map,
      show (Prod.fst ∘ fun lab : String => (lab, v.Repo)) = id from rfl,
      List.map_id]

theorem buildShared_good (issues : List githubIssue) : GoodMap (buildShared issues) :=
  foldl_addOcc_good _ _ ⟨by simp, by simp⟩

theorem buildShared_count (issues : List githubIssue) (lab : String) :
    (lookupRepos (buildShared issues) lab).length
      = (issues.flatMap githubIssue.LabelNames).count lab := by
  unfold buildShared
  rw [foldl_addOcc_length, map_fst_labelOccs]
  simp [lookupRepos]

theorem sharedEntries_names (issues : List githubIssue) (owner name : String) :
    name ∈ (sharedEntries owner issues).map githubSharedLabel.Name
      ↔ 1 < (issues.flatMap githubIssue.LabelNames).count name := by
  rw [← buildShared_count]
  constructor
  · intro h
    simp only [List.mem_map] at h
    obtain ⟨entry, hentry, hname⟩ := h
    rw [sharedEntries, List.mem_filterMap] at hentry
    obtain ⟨q, hq, hfq⟩ := hentry
    split_ifs at hfq with hlen
    · injection hfq with hfq
      subst hfq
      have hlook := lookupRepos_of_mem _ (buildShared_good issues).1 q hq
      have hqname : q.1 = name := hname
      rw [← hqname, hlook]
      exact hlen
  · intro h
    have hne : lookupRepos (buildShared issues) name ≠ [] := by
      intro h0
      rw [h0] at h
      simp at h
    have hmem := mem_of_lookupRepos _ _ hne
    refine List.mem_map.mpr
      ⟨{ Name := name, Count := (lookupRepos (buildShared issues) name).length,
         Repos := renderShared owner name (lookupRepos (buildShared issues) name) },
       ?_, rfl⟩
    rw [sharedEntries, List.mem_filterMap]
    exact ⟨(name, lookupRepos (buildShared issues) name), hmem, by rw [if_pos h]⟩

/-! ### C8 -/

/-- C8: after refreshIssues returns without error, OpenIssues plus
ClosedIssues is the number of fetched issues, HasIssues iff that number is
positive, SharedLabels holds exactly the label names with more than one
occurrence across issues (one per issue occurrence), sorted ascending by
name, and HasSharedLabels iff SharedLabels is non-empty. -/
theorem refreshIssues_spec (gr : githubRender) (config : githubConfig)
    (fetch : GithubFetch)
    (h : (refreshIssues gr config fetch).2 = none) :
    ((refreshIssues gr config fetch).1.OpenIssues
        + (refreshIssues gr config fetch).1.ClosedIssues
      = (refreshIssues gr config fetch).1.Issues.length)
    ∧ ((refreshIssues gr config fetch).1.HasIssues = true ↔
        0 < (refreshIssues gr config fetch).1.Issues.length)
    ∧ (∀ name, name ∈ (refreshIssues gr config fetch).1.SharedLabels.map
          githubSharedLabel.Name ↔
        1 < ((refreshIssues gr config fetch).1.Issues.flatMap
          githubIssue.LabelNames).count name)
    ∧ List.Pairwise (fun a b => a.Name ≤ b.Name)
        (refreshIssues gr config fetch).1.SharedLabels
    ∧ ((refreshIssues gr config fetch).1.HasSharedLabels = true ↔
        (refreshIssues gr config fetch).1.SharedLabels ≠ []) := by
  unfold refreshIssues at *
  rcases hget : getIssues fetch config with ⟨issues, err, calls⟩
  cases err with
  | some e =>
    rw [hget] at h
    simp at h
  | none =>
    simp only [decide_eq_true_eq]
    refine ⟨countP_open_closed issues, ?_, ?_, ?_, ?_⟩
    · rw [countP_open_closed issues]
    · intro name
      have hperm := (List.perm_insertionSort sharedLabelLE
        (sharedEntries config.Owner issues)).map githubSharedLabel.Name
      rw [hperm.mem_iff]
      exact sharedEntries_names issues config.Owner name
    · exact (List.sorted_insertionSort sharedLabelLE
        (sharedEntries config.Owner issues)).imp (fun hab => not_lt.mp hab)
    · exact List.length_pos

/-! ### C9: which repositories getIssues fetches, and in what state -/

/-- The call was made for an entry of the list marked Included. -/
def CallFromIncluded (l : List githubBranch) (c : FetchCall) : Prop :=
  ∃ orb ∈ l, orb.Included = true ∧ c.owner = orb.Owner ∧ c.repo = orb.Repo

/-- The owner/repo string of a call, as getIssues builds it. -/
def callRName (c : FetchCall) : String := c.owner ++ "/" ++ c.repo

/-- The owner/repo strings of the calls made with a given state. -/
def stateCalls (st : String) (calls : List FetchCall) : List String :=
  (calls.filter (fun c => c.opts.State == st)).map callRName

theorem stateCalls_append (st : String) (xs ys : List FetchCall) :
    stateCalls st (xs ++ ys) = stateCalls st xs ++ stateCalls st ys := by
  simp [stateCalls, List.filter_append]

theorem stateCalls_single_eq (st : String) (c : FetchCall)
    (h : c.opts.State = st) : stateCalls st [c] = [callRName c] := by
  simp [stateCalls, List.filter, h]

theorem stateCalls_single_ne (st : String) (c : FetchCall)
    (h : c.opts.State ≠ st) : stateCalls st [c] = [] := by
  have hbeq : (c.opts.State == st) = false := beq_eq_false_iff_ne.mpr h
  simp [stateCalls, List.filter, hbeq]

theorem nodup_concat {α : Type} (l : List α) (x : α) :
    (l ++ [x]).Nodup ↔ l.Nodup ∧ x ∉ l := by
  simp [List.nodup_append]

theorem fetchPass_calls (fetch : GithubFetch) (config : githubConfig)
    (orb : githubBranch) (rName state : String) (s : GetState) :
    ((fetchPass fetch config orb rName state s).1).calls
      = s.calls ++ [⟨orb.Owner, orb.Repo, mkOpts config state⟩] := by
  simp only [fetchPass]
  cases h : fetch orb.Owner orb.Repo (mkOpts config state) <;> simp [h]

theorem fetchPass_hadRepo (fetch : GithubFetch) (config : githubConfig)
    (orb : githubBranch) (rName state : String) (s : GetState) :
    ((fetchPass fetch config orb rName state s).1).hadRepo = s.hadRepo := by
  simp only [fetchPass]
  cases h : fetch orb.Owner orb.Repo (mkOpts config state) <;> simp [h]

/-- The invariant carried by the getIssues loop: the open-state and
closed-state call logs have no repeated repository, and every repository
already called is recorded in hadRepo. -/
def CallsInv (s : GetState) : Prop :=
  (stateCalls "open" s.calls).Nodup ∧ (stateCalls "closed" s.calls).Nodup
  ∧ (∀ x ∈ stateCalls "open" s.calls, x ∈ s.hadRepo)
  ∧ (∀ x ∈ stateCalls "closed" s.calls, x ∈ s.hadRepo)

theorem getIssuesAux_nodup (fetch : GithubFetch) (config : githubConfig) :
    ∀ (entries : List githubBranch) (s : GetState), CallsInv s →
      (stateCalls "open" (getIssuesAux fetch config entries s).1.calls).Nodup
      ∧ (stateCalls "closed" (getIssuesAux fetch config entries s).1.calls).Nodup := by
  intro entries
  induction entries with
  | nil =>
    intro s hs
    simp only [getIssuesAux]
    exact ⟨hs.1, hs.2.1⟩
  | cons orb rest ih =>
    intro s hs
    simp only [getIssuesAux]
    by_cases hinc : orb.Included <;> simp only [hinc, if_true, if_false, Bool.false_eq_true]
    case neg => exact ih s hs
    case pos =>
    by_cases hhad : orb.Owner ++ "/" ++ orb.Repo ∈ s.hadRepo
    · rw [if_pos hhad]
      exact ih s hs
    · rw [if_neg hhad]
      rcases h1 : fetchPass fetch config orb (orb.Owner ++ "/" ++ orb.Repo) "open" s
        with ⟨s1, e1⟩
      have hc1 : s1.calls = s.calls ++ [⟨orb.Owner, orb.Repo, mkOpts config "open"⟩] := by
        have hcall := fetchPass_calls fetch config orb (orb.Owner ++ "/" ++ orb.Repo) "open" s
        rw [h1] at hcall
        exact hcall
      have hh1 : s1.hadRepo = s.hadRepo := by
        have hhr := fetchPass_hadRepo fetch config orb (orb.Owner ++ "/" ++ orb.Repo) "open" s
        rw [h1] at hhr
        exact hhr
      have hopen1 : stateCalls "open" s1.calls
          = stateCalls "open" s.calls ++ [orb.Owner ++ "/" ++ orb.Repo] := by
        rw [hc1, stateCalls_append,
          stateCalls_single_eq "open" ⟨orb.Owner, orb.Repo, mkOpts config "open"⟩ rfl]
        rfl
      have hclosed1 : stateCalls "closed" s1.calls = stateCalls "closed" s.calls := by
        rw [hc1, stateCalls_append,
          stateCalls_single_ne "closed" ⟨orb.Owner, orb.Repo, mkOpts config "open"⟩
            (show ("open" : String) ≠ "closed" by decide)]
        simp
      have hno : orb.Owner ++ "/" ++ orb.Repo ∉ stateCalls "open" s.calls :=
        fun hx => hhad (hs.2.2.1 _ hx)
      have hnc : orb.Owner ++ "/" ++ orb.Repo ∉ stateCalls "closed" s.calls :=
        fun hx => hhad (hs.2.2.2 _ hx)
      cases e1 with
      | some e =>
        show (stateCalls "open" s1.calls).Nodup ∧ (stateCalls "closed" s1.calls).Nodup
        exact ⟨by rw [hopen1]; exact (nodup_concat _ _).mpr ⟨hs.1, hno⟩,
          by rw [hclosed1]; exact hs.2.1⟩
      | none =>
        simp only []
        rcases h2 : fetchPass fetch config orb (orb.Owner ++ "/" ++ orb.Repo) "closed" s1
          with ⟨s2, e2⟩
        have hc2 : s2.calls = s1.calls ++ [⟨orb.Owner, orb.Repo, mkOpts config "closed"⟩] := by
          have hcall := fetchPass_calls fetch config orb (orb.Owner ++ "/" ++ orb.Repo) "closed" s1
          rw [h2] at hcall
          exact hcall
        have hh2 : s2.hadRepo = s.hadRepo := by
          have hhr := fetchPass_hadRepo fetch config orb (orb.Owner ++ "/" ++ orb.Repo) "closed" s1
          rw [h2] at hhr
          rw [hhr, hh1]
        have hopen2 : stateCalls "open" s2.calls
            = stateCalls "open" s.calls ++ [orb.Owner ++ "/" ++ orb.Repo] := by
          rw [hc2, stateCalls_append,
            stateCalls_single_ne "open" ⟨orb.Owner, orb.Repo, mkOpts config "closed"⟩
              (show ("closed" : String) ≠ "open" by decide)]
          rw [List.append_nil, hopen1]
        have hclosed2 : stateCalls "closed" s2.calls
            = stateCalls "closed" s.calls ++ [orb.Owner ++ "/" ++ orb.Repo] := by
          rw [hc2, stateCalls_append,
            stateCalls_single_eq "closed" ⟨orb.Owner, orb.Repo, mkOpts config "closed"⟩ rfl,
            hclosed1]
          rfl
        cases e2 with
        | some e =>
          show (stateCalls "open" s2.calls).Nodup ∧ (stateCalls "closed" s2.calls).Nodup
          exact ⟨by rw [hopen2]; exact (nodup_concat _ _).mpr ⟨hs.1, hno⟩,
            by rw [hclosed2]; exact (nodup_concat _ _).mpr ⟨hs.2.1, hnc⟩⟩
        | none =>
          simp only []
          apply ih
          refine ⟨?_, ?_, ?_, ?_⟩
          · rw [hopen2]
            exact (nodup_concat _ _).mpr ⟨hs.1, hno⟩
          · rw [hclosed2]
            exact (nodup_concat _ _).mpr ⟨hs.2.1, hnc⟩
          · intro x hx
            rw [hopen2] at hx
            simp only [hh2, List.mem_append, List.mem_singleton] at hx ⊢
            exact hx.imp (fun hm => hs.2.2.1 _ hm) id
          · intro x hx
            rw [hclosed2] at hx
            simp only [hh2, List.mem_append, List.mem_singleton] at hx ⊢
            exact hx.imp (fun hm => hs.2.2.2 _ hm) id

theorem getIssuesAux_calls_included (fetch : GithubFetch) (config : githubConfig) :
    ∀ (entries : List githubBranch) (s : GetState),
      ∀ c ∈ (getIssuesAux fetch config entries s).1.calls,
        c ∈ s.calls ∨ CallFromIncluded entries c := by
  intro entries
  induction entries with
  | nil =>
    intro s c hc
    simp only [getIssuesAux] at hc
    exact Or.inl hc
  | cons orb rest ih =>
    intro s c hc
    simp only [getIssuesAux] at hc
    by_cases hinc : orb.Included = true
    case neg =>
      rw [if_neg hinc] at hc
      rcases ih s c hc with hl | ⟨o, ho, hprop⟩
      · exact Or.inl hl
      · exact Or.inr ⟨o, List.mem_cons_of_mem _ ho, hprop⟩
    case pos =>
    rw [if_pos hinc] at hc
    by_cases hhad : orb.Owner ++ "/" ++ orb.Repo ∈ s.hadRepo
    · rw [if_pos hhad] at hc
      rcases ih s c hc with hl | ⟨o, ho, hprop⟩
      · exact Or.inl hl
      · exact Or.inr ⟨o, List.mem_cons_of_mem _ ho, hprop⟩
    · rw [if_neg hhad] at hc
      rcases h1 : fetchPass fetch config orb (orb.Owner ++ "/" ++ orb.Repo) "open" s
        with ⟨s1, e1⟩
      have hc1 : s1.calls = s.calls ++ [⟨orb.Owner, orb.Repo, mkOpts config "open"⟩] := by
        have hcall := fetchPass_calls fetch config orb (orb.Owner ++ "/" ++ orb.Repo) "open" s
        rw [h1] at hcall
        exact hcall
      rw [h1] at hc
      cases e1 with
      | some e =>
        simp only [] at hc
        rw [hc1] at hc
        rcases List.mem_append.mp hc with hl | hr
        · exact Or.inl hl
        · rw [List.mem_singleton] at hr
          subst hr
          exact Or.inr ⟨orb, List.mem_cons_self _ _, hinc, rfl, rfl⟩
      | none =>
        simp only [] at hc
        rcases h2 : fetchPass fetch config orb (orb.Owner ++ "/" ++ orb.Repo) "closed" s1
          with ⟨s2, e2⟩
        have hc2 : s2.calls = s1.calls ++ [⟨orb.Owner, orb.Repo, mkOpts config "closed"⟩] := by
          have hcall := fetchPass_calls fetch config orb (orb.Owner ++ "/" ++ orb.Repo) "closed" s1
          rw [h2] at hcall
          exact hcall
        rw [h2] at hc
        cases e2 with
        | some e =>
          simp only [] at hc
          rw [hc2, hc1] at hc
          rcases List.mem_append.mp hc with hl | hr
          · rcases List.mem_append.mp hl with hll | hlr
            · exact Or.inl hll
            · rw [List.mem_singleton] at hlr
              subst hlr
              exact Or.inr ⟨orb, List.mem_cons_self _ _, hinc, rfl, rfl⟩
          · rw [List.mem_singleton] at hr
            subst hr
            exact Or.inr ⟨orb, List.mem_cons_self _ _, hinc, rfl, rfl⟩
        | none =>
          simp only [] at hc
          rcases ih _ c hc with hl | ⟨o, ho, hprop⟩
          · simp only [] at hl
            rw [hc2, hc1] at hl
            rcases List.mem_append.mp hl with hll | hlr
            · rcases List.mem_append.mp hll with h3 | h4
              · exact Or.inl h3
              · rw [List.mem_singleton] at h4
                subst h4
                exact Or.inr ⟨orb, List.mem_cons_self _ _, hinc, rfl, rfl⟩
            · rw [List.mem_singleton] at hlr
              subst hlr
              exact Or.inr ⟨orb, List.mem_cons_self _ _, hinc, rfl, rfl⟩
          · exact Or.inr ⟨o, List.mem_cons_of_mem _ ho, hprop⟩

theorem getIssues_calls_characterisation (fetch : GithubFetch) (config : githubConfig) :
    (getIssues fetch config).2.2
      = (getIssuesAux fetch config config.Lists ⟨[], [], []⟩).1.calls := by
  unfold getIssues
  rcases haux : getIssuesAux fetch config config.Lists ⟨[], [], []⟩ with ⟨s, err⟩
  cases err <;> rfl

/-! ### C9 -/

/-- C9 amended: getIssues calls the client only for entries marked
Included; each distinct owner/repo pair is fetched at most once per state
even when it appears in multiple included entries; and when getIssues
returns without error its result is sorted in the issuesToSort comparator
order (on a fetch error the partial result is returned unsorted). -/
theorem getIssues_spec_amended (fetch : GithubFetch) (config : githubConfig) :
    (∀ c ∈ (getIssues fetch config).2.2, CallFromIncluded config.Lists c)
    ∧ (stateCalls "open" (getIssues fetch config).2.2).Nodup
    ∧ (stateCalls "closed" (getIssues fetch config).2.2).Nodup
    ∧ ((getIssues fetch config).2.1 = none →
        List.Pairwise issueLE (getIssues fetch config).1) := by
  have hinv : CallsInv ⟨[], [], []⟩ := by
    refine ⟨?_, ?_, ?_, ?_⟩ <;> simp [stateCalls]
  have hnodup := getIssuesAux_nodup fetch config config.Lists ⟨[], [], []⟩ hinv
  refine ⟨?_, ?_, ?_, ?_⟩
  · intro c hc
    rw [getIssues_calls_characterisation] at hc
    rcases getIssuesAux_calls_included fetch config config.Lists ⟨[], [], []⟩ c hc
      with hl | hr
    · cases hl
    · exact hr
  · rw [getIssues_calls_characterisation]
    exact hnodup.1
  · rw [getIssues_calls_characterisation]
    exact hnodup.2
  · intro herr
    unfold getIssues at herr ⊢
    rcases haux : getIssuesAux fetch config config.Lists ⟨[], [], []⟩ with ⟨s, err⟩
    rw [haux] at herr
    cases err with
    | some e => exact Option.noConfusion herr
    | none =>
      simp only []
      exact List.sorted_insertionSort issueLE s.ret

/-! ### Concrete repositories and clients used to evaluate the model -/

/-- An open issue carrying the bug label. -/
def rawOpenEx : rawIssue :=
  { Number := 1, Title := "crash on save", State := "open", HTMLURL := "u1",
    CreatedAt := ⟨2020, 3, 1, 9, 0⟩, UpdatedAt := ⟨2020, 3, 3, 10, 0⟩,
    Assignee := none, Milestone := none,
    Labels := [{ Name := "bug", Color := "f00" }] }

/-- A closed issue carrying the bug and docs labels. -/
def rawClosedEx : rawIssue :=
  { Number := 2, Title := "fix typo", State := "closed", HTMLURL := "u2",
    CreatedAt := ⟨2020, 3, 2, 9, 0⟩, UpdatedAt := ⟨2020, 3, 4, 10, 0⟩,
    Assignee := none, Milestone := none,
    Labels := [{ Name := "bug", Color := "f00" }, { Name := "docs", Color := "0f0" }] }

/-- A configuration with one included repository. -/
def exConfig : githubConfig :=
  { Lists := [{ Owner := "acme", Repo := "widget", Included := true, Private := false }],
    BranchLines := 30, SincePtr := none, Owner := "acme" }

/-- A client whose open-state call returns an open issue before a closed
one and whose closed-state call fails. -/
def fetchBreak : GithubFetch := fun _ _ opts =>
  if opts.State == "open" then .ok [rawOpenEx, rawClosedEx] else .error "boom"

/-- A client answering both passes successfully. -/
def fetchOk : GithubFetch := fun _ _ opts =>
  if opts.State == "open" then .ok [rawOpenEx] else .ok [rawClosedEx]

/-- C9 counterexample: when the closed-state call fails, getIssues returns
the partial slice accumulated from the open-state call together with the
error, and that slice is not sorted in the comparator order (the open
issue precedes the closed one), so the claim that the returned slice is
always sorted fails. -/
theorem getIssues_sorted_claim_counterexample :
    (getIssues fetchBreak exConfig).2.1 = some "boom"
    ∧ ¬ List.Pairwise issueLE (getIssues fetchBreak exConfig).1 := by
  constructor
  · rfl
  · decide

/-- C9 amended, witnessed on the one-repository configuration with a
successful client: the fetch succeeds and the result is sorted. -/
theorem getIssues_spec_amended_witness :
    (getIssues fetchOk exConfig).2.1 = none
    ∧ List.Pairwise issueLE (getIssues fetchOk exConfig).1
    ∧ (stateCalls "open" (getIssues fetchOk exConfig).2.2).Nodup :=
  ⟨rfl, (getIssues_spec_amended fetchOk exConfig).2.2.2 rfl,
    (getIssues_spec_amended fetchOk exConfig).2.1⟩

/-- The empty render state refreshIssues starts from. -/
def grEmpty : githubRender :=
  { Issues := [], OpenIssues := 0, ClosedIssues := 0, HasIssues := false,
    SharedLabels := [], HasSharedLabels := false }

/-- C8 witnessed on the one-repository configuration: one open and one
closed issue are fetched and the counts add up to the total. -/
theorem refreshIssues_spec_witness :
    (refreshIssues grEmpty exConfig fetchOk).2 = none
    ∧ (refreshIssues grEmpty exConfig fetchOk).1.OpenIssues
        + (refreshIssues grEmpty exConfig fetchOk).1.ClosedIssues
      = (refreshIssues grEmpty exConfig fetchOk).1.Issues.length :=
  ⟨rfl, (refreshIssues_spec grEmpty exConfig fetchOk rfl).1⟩
